import Mathlib

/-!
Verification of the screenplay-translation backend.

Text is modelled as `List Char`; sizes and page coordinates are integers
(PDF geometry is measured in tenths of a PostScript point, in which every
quantity appearing in the program is exact).
-/

set_option maxHeartbeats 2000000

namespace Screenplay

abbrev Text := List Char

/-! ## Parser: line-based chunk splitter (`parse_fountain`, parser.py lines 79-88) -/

/-- `PARSER_CHUNK_SIZE = 8000` (parser.py line 16). -/
def PARSER_CHUNK_SIZE : Nat := 8000

/-- Characters that Python's `str.splitlines` treats as line boundaries:
LF, CR, VT, FF, FS, GS, RS, NEL, LINE SEPARATOR and PARAGRAPH SEPARATOR
(an ordinary space is not a boundary). -/
def isLineBreakChar (c : Char) : Bool :=
  c = '\n' || c = '\r' || c = '\x0b' || c = '\x0c' ||
  c = '\x1c' || c = '\x1d' || c = '\x1e' || c = '\x85' ||
  c = '\u2028' || c = '\u2029'

/-- Worker for `str.splitlines(keepends=True)`: `acc` holds the current
line reversed; a `"\r\n"` pair is a single boundary. -/
def splitlinesAux : Text → Text → List Text
  | [], acc => if acc.isEmpty then [] else [acc.reverse]
  | '\r' :: '\n' :: rest, acc => (acc.reverse ++ ['\r', '\n']) :: splitlinesAux rest []
  | c :: rest, acc =>
      if isLineBreakChar c then (acc.reverse ++ [c]) :: splitlinesAux rest []
      else splitlinesAux rest (c :: acc)

/-- Python `raw_text.splitlines(keepends=True)`. -/
def splitlinesKeepends (s : Text) : List Text := splitlinesAux s []

/-- The greedy accumulation loop of `parse_fountain` (parser.py lines 80-88):
`cur` is `current_chunk`; a chunk is closed when adding the next line would
exceed the size and the current chunk is non-empty. -/
def chunkAux (size : Nat) : List Text → Text → List Text
  | [], cur => if cur.isEmpty then [] else [cur]
  | l :: rest, cur =>
      if cur.length + l.length > size && !cur.isEmpty then
        cur :: chunkAux size rest l
      else
        chunkAux size rest (cur ++ l)

/-- The chunk list built by `parse_fountain` from the raw text. -/
def parseChunks (size : Nat) (raw : Text) : List Text :=
  chunkAux size (splitlinesKeepends raw) []

theorem splitlinesAux_flatten (s acc : Text) :
    (splitlinesAux s acc).flatten = acc.reverse ++ s := by
  induction s, acc using splitlinesAux.induct with
  | case1 acc h => simp_all [splitlinesAux, List.isEmpty_iff]
  | case2 acc h => simp_all [splitlinesAux]
  | case3 rest acc ih => simp [splitlinesAux, ih]
  | case4 c rest acc hne hbr ih => simp [splitlinesAux, hne, hbr, ih]
  | case5 c rest acc hne hbr ih => simp [splitlinesAux, hne, hbr, ih]

theorem splitlinesKeepends_flatten (s : Text) :
    (splitlinesKeepends s).flatten = s := by
  simpa using splitlinesAux_flatten s []

theorem chunkAux_flatten (size : Nat) (ls : List Text) (cur : Text) :
    (chunkAux size ls cur).flatten = cur ++ ls.flatten := by
  induction ls generalizing cur with
  | nil =>
      by_cases h : cur.isEmpty <;>
        simp_all [chunkAux, List.isEmpty_iff]
  | cons l rest ih =>
      by_cases h : cur.length + l.length > size && !cur.isEmpty <;>
        simp [chunkAux, h, ih]

theorem chunkAux_ne_nil (size : Nat) (ls : List Text) (cur : Text) :
    ∀ c ∈ chunkAux size ls cur, c ≠ [] := by
  induction ls generalizing cur with
  | nil =>
      intro c hc
      by_cases h : cur.isEmpty <;> simp_all [chunkAux, List.isEmpty_iff]
  | cons l rest ih =>
      intro c hc
      by_cases h : cur.length + l.length > size && !cur.isEmpty
      · simp only [chunkAux, h, if_true] at hc
        rcases List.mem_cons.mp hc with rfl | hc
        · simp only [Bool.and_eq_true, Bool.not_eq_true', List.isEmpty_eq_false] at h
          exact h.2
        · exact ih l c hc
      · simp only [chunkAux, h, if_false] at hc
        exact ih (cur ++ l) c hc

/-- Size invariant of the greedy chunker: every chunk it ever emits either
fits in `size` or already occurs in the set `L` of whole input lines. -/
theorem chunkAux_le_or_mem (size : Nat) (L : List Text) :
    ∀ (ls : List Text) (cur : Text), (cur.length ≤ size ∨ cur ∈ L) →
      (∀ l ∈ ls, l ∈ L) →
      ∀ c ∈ chunkAux size ls cur, c.length ≤ size ∨ c ∈ L := by
  intro ls
  induction ls with
  | nil =>
      intro cur hcur _ c hc
      by_cases h : cur.isEmpty <;> simp_all [chunkAux]
  | cons l rest ih =>
      intro cur hcur hls c hc
      by_cases h : cur.length + l.length > size && !cur.isEmpty
      · simp only [chunkAux, h, if_true] at hc
        rcases List.mem_cons.mp hc with rfl | hc
        · exact hcur
        · exact ih l (Or.inr (hls l (by simp))) (fun x hx => hls x (by simp [hx])) c hc
      · simp only [chunkAux, h, if_false] at hc
        have hcur' : (cur ++ l).length ≤ size ∨ (cur ++ l) ∈ L := by
          by_cases hemp : cur = []
          · subst hemp
            exact Or.inr (by simpa using hls l (by simp))
          · left
            have hb : ¬size < cur.length + l.length := by
              intro h1
              exact h (by simp [List.isEmpty_iff, hemp, h1])
            simpa [List.length_append] using Nat.not_lt.mp hb
        exact ih (cur ++ l) hcur' (fun x hx => hls x (by simp [hx])) c hc

/-- C2: concatenating the chunks in order reconstructs the raw text, no
chunk is empty, and an empty input yields an empty chunk list. -/
theorem parseChunks_flatten_eq_and_ne_nil (size : Nat) (hsize : 0 < size) (raw : Text) :
    (parseChunks size raw).flatten = raw ∧
    (∀ c ∈ parseChunks size raw, c ≠ []) ∧
    parseChunks size [] = [] := by
  refine ⟨?_, ?_, rfl⟩
  · rw [parseChunks, chunkAux_flatten, splitlinesKeepends_flatten]
    rfl
  · exact chunkAux_ne_nil size (splitlinesKeepends raw) []

theorem parseChunks_flatten_witness :
    0 < 3 ∧
    ((parseChunks 3 ['a', 'b', '\n', 'c', 'd']).flatten = ['a', 'b', '\n', 'c', 'd'] ∧
     (∀ c ∈ parseChunks 3 ['a', 'b', '\n', 'c', 'd'], c ≠ []) ∧
     parseChunks 3 [] = []) :=
  ⟨by decide, parseChunks_flatten_eq_and_ne_nil 3 (by decide) ['a', 'b', '\n', 'c', 'd']⟩

/-- C3: an oversized chunk is a whole input line (never split); and the
greedy rule closes the current chunk exactly when adding the next line
would exceed the limit, starting the new chunk with that line. -/
theorem parseChunks_size_bound :
    (∀ size raw c, c ∈ parseChunks size raw → size < c.length →
      c ∈ splitlinesKeepends raw) ∧
    (∀ size (ls : List Text) (l cur : Text), cur ≠ [] → size < cur.length + l.length →
      chunkAux size (l :: ls) cur = cur :: chunkAux size ls l) ∧
    (∀ size (ls : List Text) (l cur : Text), cur.length + l.length ≤ size →
      chunkAux size (l :: ls) cur = chunkAux size ls (cur ++ l)) := by
  refine ⟨?_, ?_, ?_⟩
  · intro size raw c hc hlen
    have := chunkAux_le_or_mem size (splitlinesKeepends raw)
      (splitlinesKeepends raw) [] (Or.inl (by simp)) (fun l hl => hl) c hc
    rcases this with h | h
    · omega
    · exact h
  · intro size ls l cur hne hlt
    have : (cur.length + l.length > size && !cur.isEmpty) = true := by
      simp [List.isEmpty_iff, hne, hlt]
    simp [chunkAux, this]
  · intro size ls l cur hle
    have : (cur.length + l.length > size && !cur.isEmpty) = false := by
      simp only [Bool.and_eq_false_iff]
      left
      simpa using Nat.not_lt.mpr hle
    simp [chunkAux, this]

theorem parseChunks_size_bound_witness :
    (['a', 'b', 'c', 'd', '\n'] ∈ parseChunks 2 ['a', 'b', 'c', 'd', '\n', 'x'] ∧
     2 < (['a', 'b', 'c', 'd', '\n'] : Text).length ∧
     ['a', 'b', 'c', 'd', '\n'] ∈ splitlinesKeepends ['a', 'b', 'c', 'd', '\n', 'x']) ∧
    (['x'] : Text) ≠ [] ∧ 1 < (['x'] : Text).length + (['y'] : Text).length ∧
    chunkAux 1 [['y']] ['x'] = ['x'] :: chunkAux 1 [] ['y'] ∧
    (['x'] : Text).length + (['y'] : Text).length ≤ 9 ∧
    chunkAux 9 [['y']] ['x'] = chunkAux 9 [] ['x', 'y'] := by
  refine ⟨⟨by decide, by decide,
    parseChunks_size_bound.1 2 ['a', 'b', 'c', 'd', '\n', 'x'] _ (by decide) (by decide)⟩,
    by decide, by decide,
    parseChunks_size_bound.2.1 1 [] ['y'] ['x'] (by decide) (by decide),
    by decide,
    parseChunks_size_bound.2.2 9 [] ['y'] ['x'] (by decide)⟩

/-! ## Session state machine (`main.py`: session init lines 63-70, `run_pipeline` lines 82-143) -/

/-- The stages a session record can hold. -/
inductive Stage where
  | queued | parsing | translating | formatting | generatingOutput | done | error
  deriving DecidableEq, Repr

/-- A single atomic write of `{stage, progress, message}` to the session
record (`update` in `run_pipeline`, plus the initializer and the two final
`sessions[session_id].update` calls). -/
structure SessionWrite where
  stage : Stage
  progress : Nat
  message : String
  deriving DecidableEq, Repr

/-- The fixed progress-checkpoint schedule. -/
def stageProgress : Stage → Nat
  | .queued => 0
  | .parsing => 10
  | .translating => 40
  | .formatting => 70
  | .generatingOutput => 85
  | .done => 100
  | .error => 0

def isTerminal (s : Stage) : Bool := s = .done || s = .error

/-- A list of naturals is non-decreasing left to right. -/
def nondecreasing : List Nat → Bool
  | [] => true
  | [_] => true
  | a :: b :: rest => a ≤ b && nondecreasing (b :: rest)

/-- The normal-path stage order. -/
def normalStages : List Stage :=
  [.queued, .parsing, .translating, .formatting, .generatingOutput, .done]

/-- The writes of a fully successful run, in program order: session
initialization at submission, the four `update` calls, and the final
`done` update. -/
def normalWrites : List SessionWrite :=
  [⟨.queued, 0, "Na fila..."⟩,
   ⟨.parsing, 10, "Analisando o roteiro..."⟩,
   ⟨.translating, 40, "Traduzindo para português brasileiro..."⟩,
   ⟨.formatting, 70, "Reconstruindo o roteiro em Fountain..."⟩,
   ⟨.generatingOutput, 85, "Gerando PDF..."⟩,
   ⟨.done, 100, "Tradução concluída!"⟩]

/-- The write sequence of one pipeline run. `none` is the success path;
`some j` means the exception escaped after the `(j+1)`-th write (any of
the five units of work inside the `try` block may raise), so the `except`
handler writes the `error` record and nothing further runs. -/
def pipelineWrites : Option (Fin 5) → List SessionWrite
  | none => normalWrites
  | some j => normalWrites.take (j.val + 1) ++ [⟨.error, 0, "Erro durante a tradução."⟩]

/-- C4: for every run, the stage sequence is a prefix of the normal order
or such a prefix followed by `error`; every write carries the stage's
fixed progress; progress is non-decreasing over the non-terminal prefix;
and a terminal write, if present, is the last write of the run. -/
theorem pipelineWrites_spec :
    ∀ f : Option (Fin 5),
      (∃ k ∈ List.range 7,
        (pipelineWrites f).map SessionWrite.stage = normalStages.take k ∨
        (pipelineWrites f).map SessionWrite.stage = normalStages.take k ++ [.error]) ∧
      (∀ w ∈ pipelineWrites f, w.progress = stageProgress w.stage) ∧
      nondecreasing
        (((pipelineWrites f).takeWhile (fun w => !isTerminal w.stage)).map
          SessionWrite.progress) = true ∧
      (∀ w ∈ (pipelineWrites f).dropLast, isTerminal w.stage = false) := by
  intro f
  rcases f with _ | j
  · decide
  · fin_cases j <;> decide

/-! ## Data model (schemas.py) -/

/-- `ElementType` (schemas.py lines 6-14). -/
inductive ElementType where
  | scene_heading | action | character | parenthetical | dialogue | transition
  | note | page_break
  deriving DecidableEq, Repr

/-- `ScreenplayElement` (schemas.py lines 17-22). -/
structure ScreenplayElement where
  id : String
  type : ElementType
  original : String
  translated : Option String := none
  translate : Bool
  deriving DecidableEq, Repr

/-- `ScreenplayMetadata` (schemas.py lines 25-29). -/
structure ScreenplayMetadata where
  title : String
  source_language : String := "en"
  target_language : String := "pt-BR"
  original_format : String := "fountain"
  deriving DecidableEq, Repr

/-- `ScreenplayDocument` (schemas.py lines 32-34). -/
structure ScreenplayDocument where
  metadata : ScreenplayMetadata
  elements : List ScreenplayElement
  deriving DecidableEq, Repr

/-! ## Translator (`translate_screenplay`, translator.py)

The external translation service is opaque; its accumulated
`translation_map` is a parameter `tmap : String → Option String`
(`none` models `el.id not in translation_map`). -/

/-- `CHUNK_SIZE = 30` (translator.py line 10). -/
def CHUNK_SIZE : Nat := 30

/-- Worker for `chunksOf`: `k` is the remaining capacity of the current
chunk, `cur` the current chunk reversed. -/
def chunksOfAux (n : Nat) : List α → Nat → List α → List (List α)
  | [], _, cur => if cur.isEmpty then [] else [cur.reverse]
  | x :: xs, 0, cur => cur.reverse :: chunksOfAux n xs (n - 1) [x]
  | x :: xs, k + 1, cur => chunksOfAux n xs k (x :: cur)

/-- Python `[xs[i:i+n] for i in range(0, len(xs), n)]` for `n ≥ 1`
(translator.py lines 27-30): successive groups of `n` in order. -/
def chunksOf (n : Nat) (l : List α) : List (List α) := chunksOfAux n l n []

/-- The context window of translator.py lines 41-43:
`elements[max(0, start-20) : min(len(elements), end+20)]` (`Nat`
subtraction is the composition of integer subtraction with `max 0 _`). -/
def contextWindow (elems : List ScreenplayElement) (startIdx endIdx : Nat) :
    List ScreenplayElement :=
  let s := startIdx - 20
  let e := min elems.length (endIdx + 20)
  (elems.drop s).take (e - s)

/-- Py `list.index` / `chunk[0]` / `chunk[-1]` composition giving the pair
`(chunk_start_index, chunk_end_index)` of translator.py lines 38-39. -/
def chunkBounds (doc : ScreenplayDocument) (chunk : List ScreenplayElement) :
    Nat × Nat :=
  let d : ScreenplayElement := ⟨"", .action, "", none, false⟩
  (doc.elements.indexOf (chunk.headD d), doc.elements.indexOf (chunk.getLastD d))

/-- The context window computed for one chunk of the translator loop. -/
def chunkContextWindow (doc : ScreenplayDocument) (chunk : List ScreenplayElement) :
    List ScreenplayElement :=
  contextWindow doc.elements (chunkBounds doc chunk).1 (chunkBounds doc chunk).2

/-- The merge step applied to one element (translator.py lines 104-108):
`if el.translate and el.id in translation_map: … elif not el.translate: …`. -/
def mergeElement (tmap : String → Option String) (el : ScreenplayElement) :
    ScreenplayElement :=
  if el.translate then
    match tmap el.id with
    | some t => { el with translated := some t }
    | none => el
  else
    { el with translated := some el.original }

/-- `translate_screenplay` (translator.py lines 13-110): if no element is
translate-eligible the document is returned unchanged (line 23-24);
otherwise the merge loop runs over every element. -/
def translate_screenplay (tmap : String → Option String)
    (doc : ScreenplayDocument) : ScreenplayDocument :=
  if (doc.elements.filter (·.translate)).isEmpty then doc
  else { doc with elements := doc.elements.map (mergeElement tmap) }

theorem mergeElement_id (tmap : String → Option String) (el : ScreenplayElement) :
    (mergeElement tmap el).id = el.id ∧
    (mergeElement tmap el).type = el.type ∧
    (mergeElement tmap el).original = el.original ∧
    (mergeElement tmap el).translate = el.translate := by
  unfold mergeElement
  by_cases h : el.translate
  · rcases hm : tmap el.id with _ | t <;> simp [h, hm]
  · simp [h]

/-- C10: `translate_screenplay` preserves element count, order, and the
`id`, `type`, `original`, `translate` fields; only `translated` may change. -/
theorem translate_screenplay_frame (tmap : String → Option String)
    (doc : ScreenplayDocument) :
    (translate_screenplay tmap doc).elements.length = doc.elements.length ∧
    (translate_screenplay tmap doc).elements.map
        (fun el => (el.id, el.type, el.original, el.translate)) =
      doc.elements.map (fun el => (el.id, el.type, el.original, el.translate)) ∧
    (translate_screenplay tmap doc).metadata = doc.metadata := by
  unfold translate_screenplay
  cases h : (doc.elements.filter (·.translate)).isEmpty
  · simp only [h, Bool.false_eq_true, if_false]
    refine ⟨by simp, ?_, by trivial⟩
    rw [List.map_map]
    apply List.map_congr_left
    intro el _
    obtain ⟨h1, h2, h3, h4⟩ := mergeElement_id tmap el
    simp [Function.comp, h1, h2, h3, h4]
  · simp [h]

/-- C1 counterexample: in a document whose only element has
`translate = false` (so no element is eligible), `translate_screenplay`
returns early and that element's `translated` stays `none`, not its
`original`. -/
theorem translate_passthrough_counterexample :
    ¬ (∀ el ∈ (translate_screenplay (fun _ => none)
          ⟨⟨"t", "en", "pt-BR", "fountain"⟩,
           [⟨"el_001", .character, "JOHN", none, false⟩]⟩).elements,
        el.translate = false → el.translated = some el.original) := by
  intro h
  have := h ⟨"el_001", .character, "JOHN", none, false⟩ (by decide) (by decide)
  simp at this

/-- C1 (amended): provided at least one element is translate-eligible, the
merge loop runs and every element with `translate = false` ends with
`translated = original`. -/
theorem translate_passthrough (tmap : String → Option String)
    (doc : ScreenplayDocument)
    (h : ∃ e ∈ doc.elements, e.translate = true) :
    ∀ el ∈ (translate_screenplay tmap doc).elements,
      el.translate = false → el.translated = some el.original := by
  intro el hel hfalse
  obtain ⟨e, he, het⟩ := h
  have hne : (doc.elements.filter (·.translate)).isEmpty = false := by
    by_contra hc
    rw [Bool.not_eq_false] at hc
    have hmem : e ∈ doc.elements.filter (·.translate) :=
      List.mem_filter.mpr ⟨he, by simp [het]⟩
    rw [List.isEmpty_iff.mp hc] at hmem
    exact absurd hmem (List.not_mem_nil e)
  rw [translate_screenplay, hne] at hel
  simp only [Bool.false_eq_true, if_false, List.mem_map] at hel
  obtain ⟨e0, he0, rfl⟩ := hel
  have h4 := (mergeElement_id tmap e0).2.2.2
  rw [h4] at hfalse
  simp [mergeElement, hfalse]

theorem translate_passthrough_witness :
    (∃ e ∈ ([⟨"el_001", .scene_heading, "INT. HOUSE", none, true⟩,
             ⟨"el_002", .character, "JOHN", none, false⟩] :
        List ScreenplayElement), e.translate = true) ∧
    (∀ el ∈ (translate_screenplay (fun _ => none)
          ⟨⟨"t", "en", "pt-BR", "fountain"⟩,
           [⟨"el_001", .scene_heading, "INT. HOUSE", none, true⟩,
            ⟨"el_002", .character, "JOHN", none, false⟩]⟩).elements,
        el.translate = false → el.translated = some el.original) :=
  ⟨⟨⟨"el_001", .scene_heading, "INT. HOUSE", none, true⟩, by decide, rfl⟩,
   translate_passthrough (fun _ => none) _
     ⟨⟨"el_001", .scene_heading, "INT. HOUSE", none, true⟩, by decide, rfl⟩⟩

/-- C6 (amended): the context window is the contiguous slice of the
document from `max(0, chunk_start-20)` to `min(length, chunk_end+20)`:
positionally it reads the document at offsets shifted by `chunk_start-20`,
a chunk at the document start gives a window starting at element 0, a
chunk at the document end gives a window reaching the document end, and
its length never exceeds the chunk's spanned document positions
(`chunk_end - chunk_start + 1`) plus `2*20`. -/
theorem contextWindow_spec (elems : List ScreenplayElement) (startIdx endIdx : Nat)
    (hse : startIdx ≤ endIdx) (hlen : endIdx < elems.length) :
    (contextWindow elems startIdx endIdx).length =
      min elems.length (endIdx + 20) - (startIdx - 20) ∧
    (∀ j, (startIdx - 20) + j < min elems.length (endIdx + 20) →
      (contextWindow elems startIdx endIdx).get? j = elems.get? ((startIdx - 20) + j)) ∧
    (startIdx = 0 →
      contextWindow elems startIdx endIdx = elems.take (min elems.length (endIdx + 20))) ∧
    (endIdx = elems.length - 1 →
      min elems.length (endIdx + 20) = elems.length ∧
      contextWindow elems startIdx endIdx = elems.drop (startIdx - 20)) ∧
    (contextWindow elems startIdx endIdx).length ≤ (endIdx + 1 - startIdx) + 2 * 20 := by
  have hs20 : startIdx - 20 ≤ endIdx := le_trans (Nat.sub_le _ _) hse
  have hmin : min elems.length (endIdx + 20) ≤ elems.length := Nat.min_le_left _ _
  refine ⟨?_, ?_, ?_, ?_, ?_⟩
  · simp only [contextWindow, List.length_take, List.length_drop]
    omega
  · intro j hj
    simp only [contextWindow]
    rw [List.get?_take (by omega), List.get?_drop]
  · intro h0
    subst h0
    simp [contextWindow]
  · intro hend
    have : min elems.length (endIdx + 20) = elems.length := by omega
    refine ⟨this, ?_⟩
    simp only [contextWindow, this]
    exact List.take_of_length_le (by simp)
  · simp only [contextWindow, List.length_take, List.length_drop]
    omega

/-- A small concrete element list used to instantiate window lemmas. -/
def ceWin : List ScreenplayElement :=
  List.replicate 5 ⟨"a", .action, "x", none, false⟩

theorem contextWindow_spec_witness :
    2 ≤ 3 ∧ 3 < ceWin.length ∧
    ((contextWindow ceWin 2 3).length = min ceWin.length (3 + 20) - (2 - 20) ∧
     (∀ j, (2 - 20) + j < min ceWin.length (3 + 20) →
       (contextWindow ceWin 2 3).get? j = ceWin.get? ((2 - 20) + j)) ∧
     (2 = 0 → contextWindow ceWin 2 3 = ceWin.take (min ceWin.length (3 + 20))) ∧
     (3 = ceWin.length - 1 →
       min ceWin.length (3 + 20) = ceWin.length ∧
       contextWindow ceWin 2 3 = ceWin.drop (2 - 20)) ∧
     (contextWindow ceWin 2 3).length ≤ (3 + 1 - 2) + 2 * 20) :=
  ⟨by decide, by decide, contextWindow_spec ceWin 2 3 (by decide) (by decide)⟩

/-- The document of the C6 counterexample: a translate-eligible element,
42 ineligible ones, then another translate-eligible one. -/
def ceC6doc : ScreenplayDocument :=
  ⟨⟨"t", "en", "pt-BR", "fountain"⟩,
   ⟨"a", .action, "x", none, true⟩ ::
     (List.replicate 42 ⟨"a", .action, "x", none, false⟩ ++
      [⟨"b", .action, "x", none, true⟩])⟩

/-- The single chunk the translator builds for `ceC6doc`. -/
def ceC6chunk : List ScreenplayElement :=
  [⟨"a", .action, "x", none, true⟩, ⟨"b", .action, "x", none, true⟩]

/-- C6 counterexample: for that document the translator's only chunk has 2
elements, but its context window has 44 elements, exceeding
`chunk element count + 2*20 = 42`: the claimed bound on window length in
terms of the chunk's element count fails (the chunk spans ineligible
elements that all land in the window). -/
theorem chunkContextWindow_counterexample :
    chunksOf CHUNK_SIZE (ceC6doc.elements.filter (·.translate)) = [ceC6chunk] ∧
    ceC6chunk.length = 2 ∧
    (chunkContextWindow ceC6doc ceC6chunk).length = 44 ∧
    ¬ (chunkContextWindow ceC6doc ceC6chunk).length ≤ ceC6chunk.length + 2 * 20 := by
  refine ⟨by decide, by decide, by decide, by decide⟩

/-! ## Fountain reassembly (`format_fountain`, formatter.py lines 9-43) -/

/-- formatter.py line 17: `el.translated if el.translated is not None
else el.original`. -/
def elementText (el : ScreenplayElement) : String :=
  match el.translated with
  | some t => t
  | none => el.original

/-- The per-type wrapping of formatter.py lines 19-41. -/
def formatElement (el : ScreenplayElement) : String :=
  match el.type with
  | .scene_heading => "\n" ++ elementText el ++ "\n"
  | .action => "\n" ++ elementText el ++ "\n"
  | .character => "\n" ++ elementText el
  | .parenthetical => elementText el
  | .dialogue => elementText el ++ "\n"
  | .transition => "\n" ++ elementText el ++ "\n"
  | .note => "\n[[" ++ elementText el ++ "]]\n"
  | .page_break => "\n===\n"

/-- `format_fountain` (formatter.py lines 9-43): `"\n".join(lines)`. -/
def format_fountain (doc : ScreenplayDocument) : String :=
  String.intercalate "\n" (doc.elements.map formatElement)

/-- C5 counterexample: an element with `translate = true` whose id is
missing from the mapping does keep `translated = none` after the merge,
but `format_fountain` renders its `original` text, not a null/empty
token (formatter.py line 17 falls back to `el.original`). -/
theorem format_fountain_null_counterexample :
    (translate_screenplay (fun _ => none)
        ⟨⟨"t", "en", "pt-BR", "fountain"⟩,
         [⟨"el_001", .action, "Hello", none, true⟩]⟩).elements =
      [⟨"el_001", .action, "Hello", none, true⟩] ∧
    format_fountain
        (translate_screenplay (fun _ => none)
          ⟨⟨"t", "en", "pt-BR", "fountain"⟩,
           [⟨"el_001", .action, "Hello", none, true⟩]⟩) = "\nHello\n" ∧
    format_fountain
        (translate_screenplay (fun _ => none)
          ⟨⟨"t", "en", "pt-BR", "fountain"⟩,
           [⟨"el_001", .action, "Hello", none, true⟩]⟩) ≠ "\n\n" := by
  refine ⟨by decide, by decide, by decide⟩

/-- C5 (amended): the merge leaves `translated = none` for an eligible
element missing from the mapping, and the reassembler then renders that
element's `original` text (fallback), not a null/empty token. -/
theorem merge_missing_null_formatter_fallback :
    (∀ (tmap : String → Option String) (el : ScreenplayElement),
      el.translate = true → tmap el.id = none →
      (mergeElement tmap el).translated = el.translated) ∧
    (∀ el : ScreenplayElement, el.translated = none →
      elementText el = el.original ∧
      (el.type = .action → formatElement el = "\n" ++ el.original ++ "\n")) := by
  constructor
  · intro tmap el ht hm
    simp [mergeElement, ht, hm]
  · intro el hnone
    have : elementText el = el.original := by simp [elementText, hnone]
    exact ⟨this, fun hty => by simp [formatElement, hty, this]⟩

theorem merge_missing_null_formatter_fallback_witness :
    ((⟨"el_001", .action, "Hello", none, true⟩ : ScreenplayElement).translate = true ∧
     (fun _ => (none : Option String)) "el_001" = none ∧
     (mergeElement (fun _ => none) ⟨"el_001", .action, "Hello", none, true⟩).translated =
       (⟨"el_001", .action, "Hello", none, true⟩ : ScreenplayElement).translated) ∧
    ((⟨"el_001", .action, "Hello", none, true⟩ : ScreenplayElement).translated = none ∧
     elementText ⟨"el_001", .action, "Hello", none, true⟩ = "Hello" ∧
     formatElement ⟨"el_001", .action, "Hello", none, true⟩ = "\nHello\n") := by
  refine ⟨⟨rfl, rfl, ?_⟩, rfl, ?_, ?_⟩
  · exact (merge_missing_null_formatter_fallback.1 (fun _ => none)
      ⟨"el_001", .action, "Hello", none, true⟩ rfl rfl)
  · exact (merge_missing_null_formatter_fallback.2
      ⟨"el_001", .action, "Hello", none, true⟩ rfl).1
  · exact (merge_missing_null_formatter_fallback.2
      ⟨"el_001", .action, "Hello", none, true⟩ rfl).2 rfl

/-! ## Pagination engine (`format_pdf`, formatter.py lines 46-132)

Geometry is measured in tenths of a PostScript point: `letter` is
612 x 792 pt, `inch` is 72 pt, and Courier at 12 pt has advance width
`600/1000 * 12 = 7.2` pt per character, so every coordinate and measured
width in the program is an integer number of tenths and the float
comparisons of the source are exact in this model. -/

/-- 1 inch = 720 tenths of a point. -/
def inchT : Int := 720

def pageWidth : Int := 6120
def pageHeight : Int := 7920
/-- `1.5 * inch`. -/
def leftMargin : Int := 1080
/-- `width - 1.0 * inch`. -/
def rightMargin : Int := pageWidth - inchT
/-- `height - 1.0 * inch`. -/
def topMargin : Int := pageHeight - inchT
/-- `1.0 * inch`. -/
def bottomMargin : Int := inchT
/-- `right_margin - left_margin`. -/
def usableWidth : Int := rightMargin - leftMargin
/-- `line_height = 14` pt. -/
def lineHeight : Int := 140
/-- Courier 12 pt advance width per character, 7.2 pt. -/
def charWidth : Int := 72

/-- `c.stringWidth(s, "Courier", 12)`: monospaced. -/
def stringWidth (s : Text) : Int := charWidth * s.length

/-- The characters Python's `str.strip` / `str.split` treat as whitespace
(ASCII; `\s` of the character-cue regex matches the same set on the ASCII
texts at issue). -/
def isPySpace (c : Char) : Bool :=
  c = ' ' || c = '\t' || c = '\n' || c = '\r' || c = '\x0b' || c = '\x0c'

/-- Python `s.strip()`. -/
def pyStrip (s : Text) : Text :=
  ((s.dropWhile isPySpace).reverse.dropWhile isPySpace).reverse

/-- Worker for `str.split()`: `cur` is the current word reversed. -/
def pySplitAux : Text → Text → List Text
  | [], cur => if cur.isEmpty then [] else [cur.reverse]
  | c :: rest, cur =>
      if isPySpace c then
        if cur.isEmpty then pySplitAux rest [] else cur.reverse :: pySplitAux rest []
      else pySplitAux rest (c :: cur)

/-- Python `s.split()`: split on whitespace runs, no empty words. -/
def pySplit (s : Text) : List Text := pySplitAux s []

/-- Worker for `str.split("\n")`. -/
def splitNlAux : Text → Text → List Text
  | [], cur => [cur.reverse]
  | c :: rest, cur =>
      if c = '\n' then cur.reverse :: splitNlAux rest []
      else splitNlAux rest (c :: cur)

/-- Python `s.split("\n")` (`fountain_text.split("\n")`, line 86). -/
def splitNl (s : Text) : List Text := splitNlAux s []

def isUpperAlpha (c : Char) : Bool := 'A' ≤ c && c ≤ 'Z'

/-- `str.upper` on the ASCII range (maps `a`-`z` to `A`-`Z`). -/
def pyUpper (s : Text) : Text := s.map Char.toUpper

def textStartsWith (p s : Text) : Bool := decide (s.take p.length = p)

def textEndsWith (p s : Text) : Bool := decide (s.drop (s.length - p.length) = p)

/-- `re.match(r"^(INT\.|EXT\.|INT\./EXT\.)", stripped)` (line 94). -/
def isSceneHeadingLine (s : Text) : Bool :=
  textStartsWith "INT.".toList s || textStartsWith "EXT.".toList s ||
  textStartsWith "INT./EXT.".toList s

/-- `re.match(r"^[A-Z][A-Z\s]+$", stripped)` (line 100): a first uppercase
letter followed by one or more uppercase letters or whitespace. -/
def isCharCueShape (s : Text) : Bool :=
  match s with
  | [] => false
  | c :: rest =>
      isUpperAlpha c && !rest.isEmpty &&
      rest.all (fun d => isUpperAlpha d || isPySpace d)

/-- `stripped.startswith("(") and stripped.endswith(")")` (line 104). -/
def isParenLine (s : Text) : Bool :=
  decide (s.head? = some '(') && decide (s.getLast? = some ')')

/-- `re.match(r".+TO:$|^FADE (IN|OUT)\.$", stripped)` (line 108); the
stripped line contains no newline, so `.+TO:$` means length at least 4
with suffix `TO:`. -/
def isTransitionLine (s : Text) : Bool :=
  (decide (4 ≤ s.length) && textEndsWith "TO:".toList s) ||
  decide (s = "FADE IN.".toList) || decide (s = "FADE OUT.".toList)

/-- `3.5 * inch` (line 101). -/
def cueX : Int := 2520
/-- `3.0 * inch` (line 105). -/
def parenX : Int := 2160

/-- One drawing-stream item: `drawString`, `drawCentredString`, or
`showPage`, with the font active at the call. -/
inductive PdfItem where
  | text (x y : Int) (font : String × Nat) (s : Text)
  | ctext (x y : Int) (font : String × Nat) (s : Text)
  | page
  deriving DecidableEq, Repr

/-- Canvas state: vertical cursor `y`, active font, emitted items. -/
structure PdfState where
  y : Int
  font : String × Nat
  items : List PdfItem
  deriving DecidableEq, Repr

/-- `new_page` (lines 67-71): `showPage`, font reset to Courier 12,
cursor reset to the top margin. -/
def newPage (st : PdfState) : PdfState :=
  ⟨topMargin, ("Courier", 12), st.items ++ [.page]⟩

/-- Python `x or left_margin` (line 77): `None` and `0.0` are falsy. -/
def pyOrX : Option Int → Int
  | none => leftMargin
  | some v => if v = 0 then leftMargin else v

/-- `write_line` (lines 73-78): lazily page-break when the cursor is below
the bottom margin, draw, then advance one line height. -/
def writeLine (s : Text) (x : Option Int) (st : PdfState) : PdfState :=
  let st1 := if st.y < bottomMargin then newPage st else st
  ⟨st1.y - lineHeight, st1.font, st1.items ++ [.text (pyOrX x) st1.y st1.font s]⟩

/-- The word-wrap loop of lines 118-128, returning the `write_line`
arguments in call order; `cur` is `current_line`. -/
def wrapEmit : List Text → Text → List Text
  | [], cur => if cur.isEmpty then [] else [cur]
  | w :: ws, cur =>
      let test := pyStrip (cur ++ ' ' :: w)
      if stringWidth test ≤ usableWidth then wrapEmit ws test
      else cur :: wrapEmit ws w

/-- The action/dialogue branch (lines 117-128): run the wrap loop starting
from the empty accumulated line and `write_line` each emitted line. -/
def drawWrapped (st : PdfState) (ws : List Text) : PdfState :=
  (wrapEmit ws []).foldl (fun a t => writeLine t none a) st

/-- The body of the per-line loop of `format_pdf` (lines 86-128), applied
to the already-stripped line. -/
def procStripped (st : PdfState) (stripped : Text) : PdfState :=
  if stripped.isEmpty then { st with y := st.y - lineHeight / 2 }
  else if isSceneHeadingLine stripped then
    let st1 := { st with y := st.y - lineHeight / 2 }
    let st2 := writeLine (pyUpper stripped) none st1
    { st2 with y := st2.y - lineHeight / 2 }
  else if isCharCueShape stripped && decide (stripped.length < 40) then
    writeLine stripped (some cueX) st
  else if isParenLine stripped then
    writeLine stripped (some parenX) st
  else if isTransitionLine stripped then
    writeLine stripped (some (rightMargin - stringWidth stripped)) st
  else if stripped = "===".toList then { st with y := st.y - lineHeight }
  else drawWrapped st (pySplit stripped)

/-- One iteration of the loop: `stripped = line.strip()` then dispatch. -/
def procLine (st : PdfState) (line : Text) : PdfState :=
  procStripped st (pyStrip line)

/-- `format_pdf` (lines 46-132): title centred at the top in Courier-Bold
14, cursor two line heights below it, then the per-line loop. -/
def formatPdf (text title : Text) : PdfState :=
  (splitNl text).foldl procLine
    ⟨topMargin - 2 * lineHeight, ("Courier", 12),
     [.ctext (pageWidth / 2) topMargin ("Courier-Bold", 14) (pyUpper title)]⟩

/-- An arbitrary mid-page canvas state used for concrete evaluations. -/
def cePdfSt : PdfState := ⟨topMargin, ("Courier", 12), []⟩

/-- C7 (amended): a stripped line matching the code's character-cue shape
(`^[A-Z][A-Z\s]+$`, so at least two characters) and shorter than 40
characters, not classified as a scene heading, is drawn by a single
`drawString` at x = 3.5 inch (2520 tenths) containing the whole line —
never word-wrapped — with a page break first exactly when the cursor sits
below the bottom margin. -/
theorem charCue_fixed_offset_no_wrap (st : PdfState) (line : Text)
    (hne : (pyStrip line).isEmpty = false)
    (hsc : isSceneHeadingLine (pyStrip line) = false)
    (hcue : isCharCueShape (pyStrip line) = true)
    (hlen : (pyStrip line).length < 40) :
    (bottomMargin ≤ st.y →
      (procLine st line).items =
        st.items ++ [.text cueX st.y st.font (pyStrip line)]) ∧
    (st.y < bottomMargin →
      (procLine st line).items =
        st.items ++ [.page, .text cueX topMargin ("Courier", 12) (pyStrip line)]) := by
  have hroute : procLine st line = writeLine (pyStrip line) (some cueX) st := by
    unfold procLine procStripped
    simp [hne, hsc, hcue, hlen]
  have hx : pyOrX (some cueX) = cueX := by decide
  constructor
  · intro hy
    have hy' : ¬st.y < bottomMargin := not_lt.mpr hy
    rw [hroute]
    unfold writeLine
    simp [hy', hx]
  · intro hy
    rw [hroute]
    unfold writeLine newPage
    simp [hy, hx]

theorem charCue_fixed_offset_no_wrap_witness :
    ((pyStrip ['J', 'O', 'H', 'N']).isEmpty = false ∧
     isSceneHeadingLine (pyStrip ['J', 'O', 'H', 'N']) = false ∧
     isCharCueShape (pyStrip ['J', 'O', 'H', 'N']) = true ∧
     (pyStrip ['J', 'O', 'H', 'N']).length < 40 ∧
     bottomMargin ≤ cePdfSt.y) ∧
    (procLine cePdfSt ['J', 'O', 'H', 'N']).items =
      cePdfSt.items ++
        [.text cueX cePdfSt.y cePdfSt.font (pyStrip ['J', 'O', 'H', 'N'])] :=
  ⟨⟨by decide, by decide, by decide, by decide, by decide⟩,
   (charCue_fixed_offset_no_wrap cePdfSt ['J', 'O', 'H', 'N']
     (by decide) (by decide) (by decide) (by decide)).1 (by decide)⟩

/-- C7 counterexample: the single-character line `"A"` is all-uppercase
(letters only) and shorter than 40 characters and is not a scene heading,
yet the code's regex `^[A-Z][A-Z\s]+$` needs at least two characters, so
`"A"` is routed to the action/dialogue branch and drawn at the left
margin (1080 tenths), not at the 3.5-inch cue offset (2520 tenths). -/
theorem charCue_single_letter_counterexample :
    pyStrip ['A'] = ['A'] ∧
    isUpperAlpha 'A' = true ∧
    (['A'] : Text).length < 40 ∧
    isSceneHeadingLine ['A'] = false ∧
    isCharCueShape ['A'] = false ∧
    (procLine cePdfSt ['A']).items =
      [.text leftMargin cePdfSt.y ("Courier", 12) ['A']] ∧
    leftMargin ≠ cueX := by
  refine ⟨by decide, by decide, by decide, by decide, by decide, by decide, by decide⟩

/-- `true` iff the item draws no text below the bottom margin. -/
def itemAboveBottom : PdfItem → Bool
  | .text _ y _ _ => decide (bottomMargin ≤ y)
  | .ctext _ y _ _ => decide (bottomMargin ≤ y)
  | .page => true

theorem writeLine_itemAboveBottom (s : Text) (x : Option Int) (st : PdfState)
    (h : ∀ i ∈ st.items, itemAboveBottom i = true) :
    ∀ i ∈ (writeLine s x st).items, itemAboveBottom i = true := by
  unfold writeLine newPage
  by_cases hy : st.y < bottomMargin
  · simp only [hy, if_true]
    intro i hi
    rcases List.mem_append.mp hi with hi | hi
    · rcases List.mem_append.mp hi with hi | hi
      · exact h i hi
      · simp only [List.mem_singleton] at hi
        subst hi; decide
    · simp only [List.mem_singleton] at hi
      subst hi
      simp [itemAboveBottom, topMargin, bottomMargin, pageHeight, inchT]
  · simp only [hy, if_false]
    intro i hi
    rcases List.mem_append.mp hi with hi | hi
    · exact h i hi
    · simp only [List.mem_singleton] at hi
      subst hi
      simpa [itemAboveBottom] using not_lt.mp hy

theorem drawWrapped_foldl_itemAboveBottom (ls : List Text) (st : PdfState)
    (h : ∀ i ∈ st.items, itemAboveBottom i = true) :
    ∀ i ∈ (ls.foldl (fun a t => writeLine t none a) st).items,
      itemAboveBottom i = true := by
  induction ls generalizing st with
  | nil => exact h
  | cons l rest ih =>
      exact ih (writeLine l none st) (writeLine_itemAboveBottom l none st h)

theorem procLine_itemAboveBottom (st : PdfState) (line : Text)
    (h : ∀ i ∈ st.items, itemAboveBottom i = true) :
    ∀ i ∈ (procLine st line).items, itemAboveBottom i = true := by
  unfold procLine procStripped
  set s := pyStrip line with hs
  by_cases h0 : s.isEmpty
  · simpa [h0] using h
  · simp only [h0, Bool.false_eq_true, if_false]
    by_cases h1 : isSceneHeadingLine s
    · simp only [h1, if_true]
      exact writeLine_itemAboveBottom _ none _ (by simpa using h)
    · simp only [h1, Bool.false_eq_true, if_false]
      by_cases h2 : isCharCueShape s && decide (s.length < 40)
      · simp only [h2, if_true]
        exact writeLine_itemAboveBottom _ _ _ h
      · simp only [h2, Bool.false_eq_true, if_false]
        by_cases h3 : isParenLine s
        · simp only [h3, if_true]
          exact writeLine_itemAboveBottom _ _ _ h
        · simp only [h3, Bool.false_eq_true, if_false]
          by_cases h4 : isTransitionLine s
          · simp only [h4, if_true]
            exact writeLine_itemAboveBottom _ _ _ h
          · simp only [h4, Bool.false_eq_true, if_false]
            by_cases h5 : s = "===".toList
            · simpa [h5] using h
            · simp only [h5, if_false]
              exact drawWrapped_foldl_itemAboveBottom _ _ h

theorem foldl_procLine_itemAboveBottom (lines : List Text) (st : PdfState)
    (h : ∀ i ∈ st.items, itemAboveBottom i = true) :
    ∀ i ∈ (lines.foldl procLine st).items, itemAboveBottom i = true := by
  induction lines generalizing st with
  | nil => exact h
  | cons l rest ih =>
      exact ih (procLine st l) (procLine_itemAboveBottom st l h)

/-- C9: no text is ever drawn below the bottom margin — every `drawString`
and `drawCentredString` of a `format_pdf` run has y at or above it — and
whenever `write_line` is called with the cursor below the bottom margin,
the page break happens first: a `showPage`, the font reset to Courier 12,
the cursor reset to the top margin, and only then the pending line. -/
theorem formatPdf_no_text_below_bottom :
    (∀ text title, ∀ i ∈ (formatPdf text title).items, itemAboveBottom i = true) ∧
    (∀ (s : Text) (x : Option Int) (st : PdfState), st.y < bottomMargin →
      writeLine s x st =
        ⟨topMargin - lineHeight, ("Courier", 12),
         st.items ++ [.page, .text (pyOrX x) topMargin ("Courier", 12) s]⟩) := by
  constructor
  · intro text title
    apply foldl_procLine_itemAboveBottom
    intro i hi
    simp only [List.mem_singleton] at hi
    subst hi
    simp [itemAboveBottom, topMargin, bottomMargin, pageHeight, inchT]
  · intro s x st hy
    unfold writeLine newPage
    simp [hy]

theorem formatPdf_no_text_below_bottom_witness :
    (PdfItem.ctext (pageWidth / 2) topMargin ("Courier-Bold", 14) ['T'] ∈
        (formatPdf ['H', 'I'] ['T']).items ∧
     itemAboveBottom
        (PdfItem.ctext (pageWidth / 2) topMargin ("Courier-Bold", 14) ['T']) = true) ∧
    ((⟨0, ("Courier", 12), []⟩ : PdfState).y < bottomMargin ∧
     writeLine ['a'] none ⟨0, ("Courier", 12), []⟩ =
       ⟨topMargin - lineHeight, ("Courier", 12),
        ([] : List PdfItem) ++
          [.page, .text (pyOrX none) topMargin ("Courier", 12) ['a']]⟩) :=
  ⟨⟨by decide,
    formatPdf_no_text_below_bottom.1 ['H', 'I'] ['T'] _ (by decide)⟩,
   by decide,
   formatPdf_no_text_below_bottom.2 ['a'] none ⟨0, ("Courier", 12), []⟩ (by decide)⟩

/-- Number of `drawString` calls recorded in an item stream. -/
def textCount (items : List PdfItem) : Nat :=
  items.countP (fun i => match i with | .text _ _ _ _ => true | _ => false)

theorem writeLine_textCount (s : Text) (x : Option Int) (st : PdfState) :
    textCount (writeLine s x st).items = textCount st.items + 1 := by
  unfold writeLine newPage
  by_cases hy : st.y < bottomMargin <;>
    simp [hy, textCount, List.countP_append, List.countP_cons]

theorem foldl_writeLine_textCount (ls : List Text) (st : PdfState) :
    textCount ((ls.foldl (fun a t => writeLine t none a) st).items) =
      textCount st.items + ls.length := by
  induction ls generalizing st with
  | nil => simp
  | cons l rest ih =>
      simp only [List.foldl_cons, List.length_cons, ih, writeLine_textCount]
      omega

/-- Every word produced by `str.split()` is non-empty and all-non-space. -/
theorem pySplitAux_good (s : Text) :
    ∀ cur, cur.all (fun c => !isPySpace c) = true →
      ∀ w ∈ pySplitAux s cur, w ≠ [] ∧ w.all (fun c => !isPySpace c) = true := by
  induction s with
  | nil =>
      intro cur hcur w hw
      by_cases h : cur.isEmpty
      · simp [pySplitAux, h] at hw
      · simp only [pySplitAux, h, Bool.false_eq_true, if_false,
          List.mem_singleton] at hw
        subst hw
        refine ⟨by simpa [List.isEmpty_iff] using h, by simpa using hcur⟩
  | cons c rest ih =>
      intro cur hcur w hw
      by_cases hc : isPySpace c
      · by_cases hemp : cur.isEmpty
        · simp only [pySplitAux, hc, hemp, if_true] at hw
          exact ih [] rfl w hw
        · simp only [pySplitAux, hc, hemp, if_true, Bool.false_eq_true, if_false,
            List.mem_cons] at hw
          rcases hw with rfl | hw
          · refine ⟨by simpa [List.isEmpty_iff] using hemp, by simpa using hcur⟩
          · exact ih [] rfl w hw
      · simp only [pySplitAux, hc, Bool.false_eq_true, if_false] at hw
        refine ih (c :: cur) ?_ w hw
        simp only [List.all_cons, Bool.and_eq_true]
        exact ⟨by simpa using hc, hcur⟩

theorem pySplit_good (s : Text) :
    ∀ w ∈ pySplit s, w ≠ [] ∧ w.all (fun c => !isPySpace c) = true :=
  pySplitAux_good s [] rfl

/-- `true` iff neither the first nor the last character is whitespace
(vacuously for the empty text): exactly the fixed points of `str.strip`. -/
def noEdgeSpace (t : Text) : Bool :=
  !(t.head?.any isPySpace) && !(t.getLast?.any isPySpace)

theorem good_noEdgeSpace (w : Text) (h : w.all (fun c => !isPySpace c) = true) :
    noEdgeSpace w = true := by
  cases w with
  | nil => rfl
  | cons c r =>
      have h' := List.all_eq_true.mp h
      have hhead : isPySpace c = false := by
        simpa using h' c (by simp)
      have hlast : isPySpace ((c :: r).getLast (by simp)) = false := by
        simpa using h' _ (List.getLast_mem (by simp))
      simp [noEdgeSpace, List.getLast?_eq_getLast_of_ne_nil (l := c :: r) (by simp),
        hhead, hlast]

theorem pyStrip_eq_self (t : Text) (h : noEdgeSpace t = true) : pyStrip t = t := by
  cases t with
  | nil => rfl
  | cons c r =>
      have hc : isPySpace c = false := by
        simp only [noEdgeSpace, List.head?_cons, Option.any_some,
          Bool.and_eq_true, Bool.not_eq_true'] at h
        exact h.1
      unfold pyStrip
      rw [List.dropWhile_cons, hc]
      simp only [Bool.false_eq_true, if_false]
      cases hrev : (c :: r).reverse with
      | nil => exact absurd hrev (by simp)
      | cons d r2 =>
          have hd : isPySpace d = false := by
            have : (c :: r).getLast? = some d := by
              rw [← List.head?_reverse, hrev, List.head?_cons]
            simp only [noEdgeSpace, this, Option.any_some, Bool.and_eq_true,
              Bool.not_eq_true'] at h
            exact h.2
          rw [List.dropWhile_cons, hd]
          simp only [Bool.false_eq_true, if_false]
          rw [← hrev, List.reverse_reverse]

theorem pyStrip_cons_space (w : Text) : pyStrip (' ' :: w) = pyStrip w := by
  unfold pyStrip
  rw [List.dropWhile_cons, (by decide : isPySpace ' ' = true)]
  simp

theorem noEdgeSpace_glue (cur w : Text) (hcur : cur ≠ []) (hw : w ≠ [])
    (h1 : noEdgeSpace cur = true) (h2 : noEdgeSpace w = true) :
    noEdgeSpace (cur ++ ' ' :: w) = true := by
  unfold noEdgeSpace at *
  rw [List.head?_append_of_ne_nil cur hcur]
  rw [show cur ++ ' ' :: w = cur ++ ([' '] ++ w) from rfl,
    List.getLast?_append_of_ne_nil cur (by simp [hw]),
    List.getLast?_append_of_ne_nil [' '] hw]
  rw [Bool.and_eq_true] at h1 h2
  simp [h1.1, h2.2]

/-- `" ".join`-style gluing of the word list. -/
def joinWords : List Text → Text
  | [] => []
  | [w] => w
  | w :: ws => w ++ ' ' :: joinWords ws

theorem joinWords_glue (a b : Text) (l : List Text) :
    joinWords ((a ++ ' ' :: b) :: l) = a ++ ' ' :: joinWords (b :: l) := by
  cases l with
  | nil => rfl
  | cons c l' => simp [joinWords]

/-- The wrap loop emits at least one line once the accumulated line is
non-empty. -/
theorem wrapEmit_length_pos (ws : List Text) :
    ∀ cur, cur ≠ [] → noEdgeSpace cur = true →
      (∀ w ∈ ws, w ≠ [] ∧ w.all (fun c => !isPySpace c) = true) →
      1 ≤ (wrapEmit ws cur).length := by
  induction ws with
  | nil =>
      intro cur hc _ _
      simp [wrapEmit, List.isEmpty_iff, hc]
  | cons w ws ih =>
      intro cur hc hcur hws
      obtain ⟨hw1, hw2⟩ := hws w (by simp)
      have hglue := noEdgeSpace_glue cur w hc hw1 hcur (good_noEdgeSpace w hw2)
      have htest : pyStrip (cur ++ ' ' :: w) = cur ++ ' ' :: w :=
        pyStrip_eq_self _ hglue
      simp only [wrapEmit, htest]
      by_cases hfit : stringWidth (cur ++ ' ' :: w) ≤ usableWidth
      · simp only [hfit, if_true]
        exact ih (cur ++ ' ' :: w) (by simp) hglue
          (fun x hx => hws x (by simp [hx]))
      · simp only [hfit, if_false, List.length_cons]
        omega

/-- If the wrap loop emits exactly one line, every word was absorbed, so
the space-joined whole fits in the usable width. -/
theorem wrapEmit_single_fits (ws : List Text) :
    ∀ cur, cur ≠ [] → noEdgeSpace cur = true →
      (∀ w ∈ ws, w ≠ [] ∧ w.all (fun c => !isPySpace c) = true) →
      stringWidth cur ≤ usableWidth →
      (wrapEmit ws cur).length = 1 →
      stringWidth (joinWords (cur :: ws)) ≤ usableWidth := by
  induction ws with
  | nil =>
      intro cur _ _ _ hwidth _
      simpa [joinWords] using hwidth
  | cons w ws ih =>
      intro cur hc hcur hws hwidth hlen
      obtain ⟨hw1, hw2⟩ := hws w (by simp)
      have hglue := noEdgeSpace_glue cur w hc hw1 hcur (good_noEdgeSpace w hw2)
      have htest : pyStrip (cur ++ ' ' :: w) = cur ++ ' ' :: w :=
        pyStrip_eq_self _ hglue
      simp only [wrapEmit, htest] at hlen
      by_cases hfit : stringWidth (cur ++ ' ' :: w) ≤ usableWidth
      · simp only [hfit, if_true] at hlen
        have := ih (cur ++ ' ' :: w) (by simp) hglue
          (fun x hx => hws x (by simp [hx])) hfit hlen
        rw [joinWords_glue] at this
        simpa [joinWords] using this
      · simp only [hfit, if_false, List.length_cons] at hlen
        have hpos := wrapEmit_length_pos ws w hw1 (good_noEdgeSpace w hw2)
          (fun x hx => hws x (by simp [hx]))
        omega

/-- If the whitespace-normalised line is wider than the usable width, the
wrap loop emits at least two lines. -/
theorem wrapEmit_ge_two (s : Text)
    (hw : usableWidth < stringWidth (joinWords (pySplit s))) :
    2 ≤ (wrapEmit (pySplit s) []).length := by
  have hgood := pySplit_good s
  cases hsp : pySplit s with
  | nil =>
      rw [hsp] at hw
      simp only [joinWords, stringWidth, List.length_nil, Nat.cast_zero,
        mul_zero] at hw
      exact absurd hw (by decide)
  | cons w ws =>
      rw [hsp] at hw hgood
      obtain ⟨hw1, hw2⟩ := hgood w (by simp)
      have hwNoEdge := good_noEdgeSpace w hw2
      have htest : pyStrip (([] : Text) ++ ' ' :: w) = w := by
        rw [List.nil_append, pyStrip_cons_space, pyStrip_eq_self w hwNoEdge]
      simp only [wrapEmit, htest]
      by_cases hfit : stringWidth w ≤ usableWidth
      · simp only [hfit, if_true]
        by_contra hcon
        push_neg at hcon
        have hpos := wrapEmit_length_pos ws w hw1 hwNoEdge
          (fun x hx => hgood x (by simp [hx]))
        have hone : (wrapEmit ws w).length = 1 := by omega
        have := wrapEmit_single_fits ws w hw1 hwNoEdge
          (fun x hx => hgood x (by simp [hx])) hfit hone
        omega
      · simp only [hfit, if_false, List.length_cons]
        have hpos := wrapEmit_length_pos ws w hw1 hwNoEdge
          (fun x hx => hgood x (by simp [hx]))
        omega

/-- C8 (amended): a line reaching the action/dialogue branch whose
whitespace-normalised form (its words joined by single spaces) measures
wider than the usable width is emitted as two or more `drawString` lines
by the greedy word wrap. -/
theorem overlong_action_wrapped (st : PdfState) (line : Text)
    (h0 : (pyStrip line).isEmpty = false)
    (h1 : isSceneHeadingLine (pyStrip line) = false)
    (h2 : (isCharCueShape (pyStrip line) && decide ((pyStrip line).length < 40)) = false)
    (h3 : isParenLine (pyStrip line) = false)
    (h4 : isTransitionLine (pyStrip line) = false)
    (h5 : ¬ pyStrip line = "===".toList)
    (hwide : usableWidth < stringWidth (joinWords (pySplit (pyStrip line)))) :
    procLine st line = drawWrapped st (pySplit (pyStrip line)) ∧
    2 ≤ (wrapEmit (pySplit (pyStrip line)) []).length ∧
    textCount (procLine st line).items =
      textCount st.items + (wrapEmit (pySplit (pyStrip line)) []).length := by
  have hroute : procLine st line = drawWrapped st (pySplit (pyStrip line)) := by
    have h5' : ¬ pyStrip line = ['=', '=', '='] := by simpa using h5
    unfold procLine procStripped
    simp [h0, h1, h2, h3, h4, h5']
  refine ⟨hroute, wrapEmit_ge_two _ hwide, ?_⟩
  rw [hroute]
  unfold drawWrapped
  exact foldl_writeLine_textCount _ st

/-- Two 40-character words: the normalised line is 81 characters, wider
than the 60-character usable width. -/
def ce8wit : Text := List.replicate 40 'a' ++ ' ' :: List.replicate 40 'a'

theorem overlong_action_wrapped_witness :
    ((pyStrip ce8wit).isEmpty = false ∧
     isSceneHeadingLine (pyStrip ce8wit) = false ∧
     (isCharCueShape (pyStrip ce8wit) && decide ((pyStrip ce8wit).length < 40)) = false ∧
     isParenLine (pyStrip ce8wit) = false ∧
     isTransitionLine (pyStrip ce8wit) = false ∧
     ¬ pyStrip ce8wit = "===".toList ∧
     usableWidth < stringWidth (joinWords (pySplit (pyStrip ce8wit)))) ∧
    (procLine cePdfSt ce8wit = drawWrapped cePdfSt (pySplit (pyStrip ce8wit)) ∧
     2 ≤ (wrapEmit (pySplit (pyStrip ce8wit)) []).length ∧
     textCount (procLine cePdfSt ce8wit).items =
       textCount cePdfSt.items + (wrapEmit (pySplit (pyStrip ce8wit)) []).length) :=
  ⟨⟨by decide, by decide, by decide, by decide, by decide, by decide, by decide⟩,
   overlong_action_wrapped cePdfSt ce8wit (by decide) (by decide) (by decide)
     (by decide) (by decide) (by decide) (by decide)⟩

/-- A line whose raw measured width exceeds the usable width only because
of a run of internal spaces: `"A"`, 60 spaces, `"B"` (62 characters). -/
def ce8line : Text := 'A' :: (List.replicate 60 ' ' ++ ['B'])

/-- C8 counterexample: `ce8line` reaches the action/dialogue branch and
its measured width (62 chars * 7.2 pt = 446.4 pt) exceeds the usable
width (432 pt), yet the wrap loop emits exactly one line (`"A B"`),
because `split()` collapses the internal whitespace before any width is
measured: the claim's "always split into 2+ emitted lines" fails. -/
theorem overlong_action_single_emit_counterexample :
    pyStrip ce8line = ce8line ∧
    usableWidth < stringWidth (pyStrip ce8line) ∧
    (pyStrip ce8line).isEmpty = false ∧
    isSceneHeadingLine (pyStrip ce8line) = false ∧
    (isCharCueShape (pyStrip ce8line) && decide ((pyStrip ce8line).length < 40)) = false ∧
    isParenLine (pyStrip ce8line) = false ∧
    isTransitionLine (pyStrip ce8line) = false ∧
    ¬ pyStrip ce8line = "===".toList ∧
    (wrapEmit (pySplit (pyStrip ce8line)) []).length = 1 ∧
    textCount (procLine cePdfSt ce8line).items = textCount cePdfSt.items + 1 := by
  refine ⟨by decide, by decide, by decide, by decide, by decide, by decide,
    by decide, by decide, by decide, by decide⟩

end Screenplay
